import Mathlib

/-!
Shallow embedding of `src/cleaning.py` (stage06_preprocessing).

A pandas `DataFrame` is modelled row-major: a `Table α` carries the column
metadata (name paired with a numeric-dtype flag, mirroring
`select_dtypes(include=[np.number])`) and a list of rows, each cell an
`Option α` where `none` is the missing marker (NaN).  Numeric cells are a
linearly ordered field: claims about median filling and row dropping are
instantiated at `ℚ` (exact, executable), and the standard-scaler claim at
`ℝ` with `Real.sqrt` since the code takes a square root.  Raised Python
exceptions are modelled with `Except String`.  The copy-then-mutate
discipline of the source (`out = df.copy()` followed by in-place updates)
is modelled on a memory of tables, `Mem α := List (Table α)`, to state the
non-mutation claims.
-/

/-- A dataframe: column metadata (name, is-numeric-dtype) plus row-major
cells; `none` is the missing (NaN) marker. -/
structure Table (α : Type) where
  cols : List (String × Bool)
  rows : List (List (Option α))
  deriving DecidableEq, Repr

namespace Cleaning

variable {α : Type}

/-- Well-formedness: every row has exactly one cell per column. -/
def WF (t : Table α) : Prop :=
  ∀ r ∈ t.rows, r.length = t.cols.length

instance (t : Table α) : Decidable (WF t) := by
  unfold WF; infer_instance

/-- Index of the (first) column with the given name, as pandas column lookup. -/
def colIdx (t : Table α) (c : String) : Option Nat :=
  t.cols.findIdx? (fun p => p.1 == c)

/-- The cells of column `i`, top to bottom. -/
def colValues (t : Table α) (i : Nat) : List (Option α) :=
  t.rows.map (fun r => r.getD i none)

/-- The non-missing values of a list of cells (pandas `skipna`). -/
def nonMissing (cells : List (Option α)) : List α :=
  cells.filterMap id

/-- `_coerce_columns`: `None` defaults to the numeric columns in native
order; an explicit list is filtered to the names present, order kept. -/
def coerce_columns (t : Table α) (columns : Option (List String)) : List String :=
  match columns with
  | none => (t.cols.filter (fun p => p.2)).map Prod.fst
  | some cs => cs.filter (fun c => (t.cols.map Prod.fst).contains c)

/-- Insertion into a sorted list (ascending). -/
def insertSorted [LinearOrder α] (x : α) : List α → List α
  | [] => [x]
  | y :: ys => if x ≤ y then x :: y :: ys else y :: insertSorted x ys

/-- Insertion sort, ascending. -/
def sortAsc [LinearOrder α] : List α → List α
  | [] => []
  | x :: xs => insertSorted x (sortAsc xs)

/-- pandas `Series.median` over the non-missing values: `none` when there
are no values (all-NaN column), the middle of the sorted values when the
count is odd, the mean of the two middle values when even. -/
def median? [LinearOrderedField α] (xs : List α) : Option α :=
  let s := sortAsc xs
  let n := s.length
  if n = 0 then none
  else if n % 2 = 1 then some (s.getD (n / 2) 0)
  else some ((s.getD (n / 2 - 1) 0 + s.getD (n / 2) 0) / 2)

/-- One cell of `out[cols] = out[cols].fillna(medians)`: the cell at column
index `i` is replaced by `med i` when its column is a fill target and the
cell is missing (`fillna` with a `NaN` median leaves the cell missing,
since `med i = none` then). -/
def fillStep (target : Nat → Bool) (med : Nat → Option α) (i : Nat) (cell : Option α) : Option α :=
  if target i then (match cell with | none => med i | some v => some v) else cell

/-- One row of the fill, cells processed left to right from column `i`. -/
def fillRow (target : Nat → Bool) (med : Nat → Option α) : Nat → List (Option α) → List (Option α)
  | _, [] => []
  | i, cell :: rest => fillStep target med i cell :: fillRow target med (i + 1) rest

/-- Whether column `i` of `t` is filled by `fill_missing_median` with the
resolved list `cols`: it must be named in `cols` and be numeric (the
medians are computed with `numeric_only=True`, so `fillna` aligns only on
the numeric columns of `cols`). -/
def fillTarget (t : Table α) (cols : List String) (i : Nat) : Bool :=
  (t.cols.getD i ("", false)).2 && cols.contains (t.cols.getD i ("", false)).1

/-- `medians = out[cols].median(numeric_only=True)` for column index `i`:
the median of the column's non-missing values, `none` for an all-missing
column (its median is `NaN`). -/
def fillMed [LinearOrderedField α] (t : Table α) (i : Nat) : Option α :=
  median? (nonMissing (colValues t i))

/-- `fill_missing_median(df, columns=None)`: resolve the columns, compute
each target column's median over its non-missing values, and replace
missing cells of target columns by the column median. -/
def fill_missing_median [LinearOrderedField α] (t : Table α) (columns : Option (List String)) : Table α :=
  let cols := coerce_columns t columns
  { t with rows := t.rows.map (fillRow (fillTarget t cols) (fillMed t) 0) }

/-- Look up each requested subset name in the table's column index; a name
absent from the table raises `KeyError`. -/
def resolveNames (t : Table α) : List String → Except String (List Nat)
  | [] => Except.ok []
  | c :: cs =>
    match colIdx t c with
    | none => Except.error ("KeyError: " ++ c)
    | some i =>
      match resolveNames t cs with
      | Except.ok is => Except.ok (i :: is)
      | Except.error e => Except.error e

/-- Resolve `dropna`'s `subset` to column indices; `None` means all
columns. -/
def resolveSubset (t : Table α) (subset : Option (List String)) : Except String (List Nat) :=
  match subset with
  | none => Except.ok (List.range t.cols.length)
  | some cs => resolveNames t cs

/-- Count of non-missing cells of row `r` among the considered columns. -/
def countNonNA (idxs : List Nat) (r : List (Option α)) : Nat :=
  (idxs.filter (fun i => (r.getD i none).isSome)).length

/-- pandas `DataFrame.dropna(how=..., thresh=..., subset=...)`, rows axis:
`thresh`, when given, keeps a row iff its non-NA count among the considered
columns is at least `thresh` (and `how` is ignored); otherwise `"any"`
keeps a row iff every considered column is non-missing, `"all"` keeps a row
iff some considered column is non-missing, and any other `how` raises. -/
def dropna (t : Table α) (how : String) (thresh : Option Nat) (subset : Option (List String)) :
    Except String (Table α) :=
  match resolveSubset t subset with
  | Except.error e => Except.error e
  | Except.ok idxs =>
  match thresh with
  | some k => Except.ok { t with rows := t.rows.filter (fun r => k ≤ countNonNA idxs r) }
  | none =>
    if how = "any" then
      Except.ok { t with rows := t.rows.filter (fun r => idxs.all (fun i => (r.getD i none).isSome)) }
    else if how = "all" then
      Except.ok { t with rows := t.rows.filter (fun r => idxs.any (fun i => (r.getD i none).isSome)) }
    else Except.error ("invalid how option: " ++ how)

/-- `drop_missing(df, how="any", thresh=None, subset=None)`: copy, then
`dropna` with the given parameters. -/
def drop_missing (t : Table α) (how : String) (thresh : Option Nat) (subset : Option (List String)) :
    Except String (Table α) :=
  dropna t how thresh subset

/-- The per-column record stored in the fitted-parameters mapping. -/
inductive FitParam (α : Type) where
  | standard (mean std : α)
  | minmax (mn mx : α)
  deriving DecidableEq, Repr

/-- Python `dict` assignment `params[c] = v`: overwrite in place when the
key exists, else append. -/
def dictInsert (m : List (String × FitParam α)) (c : String) (v : FitParam α) :
    List (String × FitParam α) :=
  if ∃ p ∈ m, p.1 = c then
    m.map (fun p => if p.1 = c then (c, v) else p)
  else m ++ [(c, v)]

/-- Python `dict` lookup `params[c]` (keys are unique, the first match is
the entry). -/
def lookupParam (m : List (String × FitParam α)) (c : String) : Option (FitParam α) :=
  match m with
  | [] => none
  | p :: rest => if p.1 = c then some p.2 else lookupParam rest c

/-- Mean of a list of values (`pandas mean`, skipna already applied). -/
def listMean [LinearOrderedField α] (vs : List α) : α :=
  vs.sum / (vs.length : α)

/-- Population variance, divisor `N` (`std(ddof=0)` squared). -/
def popVar [LinearOrderedField α] (vs : List α) : α :=
  ((vs.map (fun v => (v - listMean vs) ^ 2)).sum) / (vs.length : α)

/-- Minimum of the values (`Series.min`, skipna). -/
def listMin [LinearOrder α] [Zero α] : List α → α
  | [] => 0
  | v :: vs => vs.foldl min v

/-- Maximum of the values (`Series.max`, skipna). -/
def listMax [LinearOrder α] [Zero α] : List α → α
  | [] => 0
  | v :: vs => vs.foldl max v

/-- What one loop iteration of `normalize_data` does to a cell of the
processed column, given the column's non-missing values `vs`.  For
`"standard"`: if `std == 0` the whole column is assigned the scalar `0.0`
(missing cells included), else each value becomes `(x - mean) / std` and
`NaN` cells stay `NaN`.  For `"minmax"`: if the range is `0` the whole
column becomes `0.0`, else each value becomes `(x - min) / (max - min)`.
`sqrt` is the square root `Series.std(ddof=0)` applies to the population
variance. -/
def normCellFn [LinearOrderedField α] (sqrt : α → α) (method : String) (vs : List α) :
    Option α → Option α :=
  if method = "standard" then
    if sqrt (popVar vs) = 0 then (fun _ => some 0)
    else (fun cell => cell.map (fun v => (v - listMean vs) / sqrt (popVar vs)))
  else
    if listMax vs - listMin vs = 0 then (fun _ => some 0)
    else (fun cell => cell.map (fun v => (v - listMin vs) / (listMax vs - listMin vs)))

/-- The record `params[c]` stored by one loop iteration: the method tag
with its statistics (mean and std for standardization, min and max for
min-max), stored in the degenerate branches as well. -/
def normColParam [LinearOrderedField α] (sqrt : α → α) (method : String) (vs : List α) :
    FitParam α :=
  if method = "standard" then FitParam.standard (listMean vs) (sqrt (popVar vs))
  else FitParam.minmax (listMin vs) (listMax vs)

/-- The body of `normalize_data`'s loop for one column `c`: read the
current column, compute the method's statistics over its non-missing
values, rescale the column (or zero it out in the degenerate case), and
record the fitted parameters. -/
def normCol [LinearOrderedField α] (sqrt : α → α) (method : String)
    (st : Table α × List (String × FitParam α)) (c : String) :
    Table α × List (String × FitParam α) :=
  match colIdx st.1 c with
  | none => st
  | some i =>
    let vs := nonMissing (colValues st.1 i)
    ({ st.1 with
        rows := st.1.rows.map (fun r => r.set i (normCellFn sqrt method vs (r.getD i none))) },
      dictInsert st.2 c (normColParam sqrt method vs))

/-- `normalize_data(df, columns=None, method="standard")`: resolve the
columns, validate the method (`ValueError` otherwise), then fold the
per-column rescaling over the resolved columns, threading the output table
and the parameter dict. -/
def normalize_data [LinearOrderedField α] (sqrt : α → α) (t : Table α)
    (columns : Option (List String)) (method : String) :
    Except String (Table α × List (String × FitParam α)) :=
  let cols := coerce_columns t columns
  if method = "standard" ∨ method = "minmax" then
    Except.ok (cols.foldl (normCol sqrt method) (t, []))
  else
    Except.error "method must be one of \x7b\"standard\", \"minmax\"\x7d"

/-! ### Memory model for the copy-then-mutate discipline

Each source function starts with `out = df.copy()` and then only writes
`out`.  A memory is a list of live tables; a copy appends a fresh entry
and subsequent in-place updates hit only that entry. -/

/-- `fill_missing_median` over a memory: read `df` at index `i`, append the
copy, then mutate the copy in place (`out[cols] = ...`). -/
def fill_missing_median_st [LinearOrderedField α] (m : List (Table α)) (i : Nat)
    (columns : Option (List String)) : List (Table α) × Nat :=
  let df := m.getD i ⟨[], []⟩
  let j := m.length
  let m1 := m ++ [df]
  (m1.set j (fill_missing_median df columns), j)

/-- `drop_missing` over a memory: read `df`, append the copy, then bind
`out` to the fresh table `dropna` returns (a further allocation); a raise
leaves the memory with only the abandoned copy. -/
def drop_missing_st (m : List (Table α)) (i : Nat) (how : String) (thresh : Option Nat)
    (subset : Option (List String)) : List (Table α) × Except String Nat :=
  let df := m.getD i ⟨[], []⟩
  let m1 := m ++ [df]
  match dropna df how thresh subset with
  | Except.ok t2 => (m1 ++ [t2], Except.ok m1.length)
  | Except.error e => (m1, Except.error e)

/-- `normalize_data` over a memory: read `df`, append the copy, then
mutate the copy column by column (modelled by writing the loop's final
table); the invalid-method raise happens after the copy, leaving the
original untouched. -/
def normalize_data_st [LinearOrderedField α] (sqrt : α → α) (m : List (Table α)) (i : Nat)
    (columns : Option (List String)) (method : String) :
    List (Table α) × Except String (Nat × List (String × FitParam α)) :=
  let df := m.getD i ⟨[], []⟩
  let j := m.length
  let m1 := m ++ [df]
  match normalize_data sqrt df columns method with
  | Except.ok (t2, params) => (m1.set j t2, Except.ok (j, params))
  | Except.error e => (m1, Except.error e)

/-! ### Helper lemmas -/

instance {ε β : Type} [DecidableEq ε] [DecidableEq β] : DecidableEq (Except ε β) := fun x y =>
  match x, y with
  | .error a, .error b =>
    if h : a = b then isTrue (by rw [h]) else isFalse (by intro q; cases q; exact h rfl)
  | .ok a, .ok b =>
    if h : a = b then isTrue (by rw [h]) else isFalse (by intro q; cases q; exact h rfl)
  | .error _, .ok _ => isFalse (by intro q; cases q)
  | .ok _, .error _ => isFalse (by intro q; cases q)

theorem getElem?_append_set_tail {β : Type} (m : List β) (x y : β) {i : Nat} (hi : i < m.length) :
    ((m ++ [x]).set m.length y)[i]? = m[i]? := by
  rw [List.getElem?_set_ne (Nat.ne_of_gt hi), List.getElem?_append_left hi]

theorem getElem?_append_tail {β : Type} (m : List β) (x : β) {i : Nat} (hi : i < m.length) :
    (m ++ [x])[i]? = m[i]? :=
  List.getElem?_append_left hi

theorem fillStep_of_med_none {target : Nat → Bool} {med : Nat → Option α} {i : Nat}
    (h : med i = none) (cell : Option α) : fillStep target med i cell = cell := by
  unfold fillStep
  cases cell <;> by_cases ht : target i <;> simp [ht, h]

theorem fillRow_getElem? (target : Nat → Bool) (med : Nat → Option α) (r : List (Option α)) :
    ∀ k n, (fillRow target med k r)[n]? = (r[n]?).map (fillStep target med (k + n)) := by
  induction r with
  | nil => intro k n; simp [fillRow]
  | cons c rest ih =>
    intro k n
    cases n with
    | zero => simp [fillRow]
    | succ n =>
      have hkn : k + 1 + n = k + (n + 1) := by omega
      simp [fillRow, ih (k + 1) n, hkn]

theorem fillRow_getD (target : Nat → Bool) (med : Nat → Option α) (r : List (Option α)) (n : Nat) :
    (fillRow target med 0 r).getD n none = ((r[n]?).map (fillStep target med n)).getD none := by
  rw [List.getD_eq_getElem?_getD, fillRow_getElem?]
  simp

/-- When a column's median is undefined (`none`), the fill leaves the
column unchanged. -/
theorem colValues_fill_of_med_none [LinearOrderedField α] (t : Table α)
    (columns : Option (List String)) (i : Nat) (h : fillMed t i = none) :
    colValues (fill_missing_median t columns) i = colValues t i := by
  unfold fill_missing_median colValues
  simp only [List.map_map]
  refine List.map_congr_left (fun r _ => ?_)
  show (fillRow (fillTarget t (coerce_columns t columns)) (fillMed t) 0 r).getD i none = r.getD i none
  rw [fillRow_getD]
  cases hr : r[i]? with
  | none => simp [hr]
  | some cell => simp [hr, fillStep_of_med_none h]

theorem colIdx_lt_length {t : Table α} {c : String} {i : Nat} (h : colIdx t c = some i) :
    i < t.cols.length := by
  unfold colIdx at h
  obtain ⟨hlt, -⟩ := List.findIdx?_eq_some_iff_getElem.mp h
  exact hlt

theorem colIdx_name {t : Table α} {c : String} {i : Nat} (h : colIdx t c = some i) :
    ∃ hlt : i < t.cols.length, (t.cols[i]).1 = c := by
  unfold colIdx at h
  obtain ⟨hlt, hp, -⟩ := List.findIdx?_eq_some_iff_getElem.mp h
  exact ⟨hlt, by simpa using hp⟩

theorem colIdx_inj {t : Table α} {c c' : String} {i : Nat}
    (h : colIdx t c = some i) (h' : colIdx t c' = some i) : c = c' := by
  obtain ⟨hl, hn⟩ := colIdx_name h
  obtain ⟨hl', hn'⟩ := colIdx_name h'
  rw [← hn, hn']

theorem colIdx_eq_of_cols {a b : Table α} (h : a.cols = b.cols) (c : String) :
    colIdx a c = colIdx b c := by
  unfold colIdx
  rw [h]

theorem table_eq_of {β : Type} (a b : Table β) (h1 : a.cols = b.cols) (h2 : a.rows = b.rows) :
    a = b := by
  cases a
  cases b
  cases h1
  cases h2
  rfl

theorem fillStep_fillStep {target : Nat → Bool} {med med2 : Nat → Option α} {i : Nat}
    (h : med i = none → med2 i = none) (cell : Option α) :
    fillStep target med2 i (fillStep target med i cell) = fillStep target med i cell := by
  unfold fillStep
  by_cases ht : target i
  · cases cell with
    | some v => simp [ht]
    | none =>
      cases hm : med i with
      | some v => simp [ht, hm]
      | none => simp [ht, hm, h hm]
  · simp [ht]

section NormalizeLemmas

variable [LinearOrderedField α] (sq : α → α) (method : String)

theorem lookupParam_append_ne (ps : List (String × FitParam α)) {c c' : String}
    (v : FitParam α) (hne : c' ≠ c) :
    lookupParam (ps ++ [(c', v)]) c = lookupParam ps c := by
  induction ps with
  | nil => simp [lookupParam, hne]
  | cons p ps ih =>
    by_cases hp : p.1 = c
    · simp [lookupParam, hp]
    · simp [lookupParam, hp, ih]

theorem dictInsert_lookup_self (ps : List (String × FitParam α)) (c : String) (v : FitParam α) :
    lookupParam (dictInsert ps c v) c = some v := by
  unfold dictInsert
  by_cases h : ∃ p ∈ ps, p.1 = c
  · rw [if_pos h]
    induction ps with
    | nil => simp at h
    | cons p ps ih =>
      by_cases hp : p.1 = c
      · simp [lookupParam, hp]
      · have hrest : ∃ q ∈ ps, q.1 = c := by
          obtain ⟨q, hq, he⟩ := h
          cases List.mem_cons.mp hq with
          | inl h0 => exact absurd (h0 ▸ he) hp
          | inr h0 => exact ⟨q, h0, he⟩
        simpa [lookupParam, hp] using ih hrest
  · rw [if_neg h]
    induction ps with
    | nil => simp [lookupParam]
    | cons p ps ih =>
      have hp : ¬p.1 = c := fun he => h ⟨p, List.mem_cons_self p ps, he⟩
      have hrest : ¬∃ q ∈ ps, q.1 = c := by
        rintro ⟨q, hq, he⟩
        exact h ⟨q, List.mem_cons_of_mem p hq, he⟩
      simpa [lookupParam, hp] using ih hrest

theorem lookupParam_map_overwrite_ne (ps : List (String × FitParam α)) {c c' : String}
    (v : FitParam α) (hne : c ≠ c') :
    lookupParam (ps.map (fun p => if p.1 = c' then (c', v) else p)) c = lookupParam ps c := by
  induction ps with
  | nil => rfl
  | cons p ps ih =>
    by_cases hp : p.1 = c'
    · have hpc : ¬p.1 = c := by rw [hp]; exact Ne.symm hne
      simp [lookupParam, hp, hpc, Ne.symm hne, ih]
    · simp [lookupParam, hp, ih]

theorem dictInsert_lookup_ne (ps : List (String × FitParam α)) {c c' : String} (v : FitParam α)
    (hne : c ≠ c') : lookupParam (dictInsert ps c' v) c = lookupParam ps c := by
  unfold dictInsert
  by_cases h : ∃ p ∈ ps, p.1 = c'
  · rw [if_pos h]
    exact lookupParam_map_overwrite_ne ps v hne
  · rw [if_neg h]
    exact lookupParam_append_ne ps v (Ne.symm hne)

theorem dictInsert_keys_new (ps : List (String × FitParam α)) (c : String) (v : FitParam α)
    (h : ¬c ∈ ps.map Prod.fst) :
    (dictInsert ps c v).map Prod.fst = ps.map Prod.fst ++ [c] := by
  have hex : ¬∃ p ∈ ps, p.1 = c := by
    rintro ⟨p, hp, he⟩
    exact h (List.mem_map.mpr ⟨p, hp, he⟩)
  unfold dictInsert
  rw [if_neg hex, List.map_append]
  rfl

theorem normCol_cols (st : Table α × List (String × FitParam α)) (c : String) :
    (normCol sq method st c).1.cols = st.1.cols := by
  unfold normCol
  cases h : colIdx st.1 c <;> rfl

theorem normCol_WF (st : Table α × List (String × FitParam α)) (c : String) (hwf : WF st.1) :
    WF (normCol sq method st c).1 := by
  unfold normCol
  cases h : colIdx st.1 c with
  | none => exact hwf
  | some i =>
    intro r hr
    dsimp only at hr
    obtain ⟨r0, hr0, hset⟩ := List.mem_map.mp hr
    rw [← hset]
    simpa using hwf r0 hr0

theorem normCol_colValues_ne (st : Table α × List (String × FitParam α)) {c c' : String} {i : Nat}
    (hc : colIdx st.1 c = some i) (hne : c ≠ c') :
    colValues (normCol sq method st c').1 i = colValues st.1 i := by
  unfold normCol
  cases h' : colIdx st.1 c' with
  | none => rfl
  | some i' =>
    have hii : i' ≠ i := fun he => hne (colIdx_inj hc (he ▸ h'))
    unfold colValues
    dsimp only
    rw [List.map_map]
    refine List.map_congr_left (fun r _ => ?_)
    show (r.set i' _).getD i none = r.getD i none
    simp [List.getD_eq_getElem?_getD, List.getElem?_set_ne hii]

theorem normCol_lookup_ne (st : Table α × List (String × FitParam α)) {c c' : String}
    (hne : c ≠ c') : lookupParam ((normCol sq method st c').2) c = lookupParam st.2 c := by
  unfold normCol
  cases h' : colIdx st.1 c' with
  | none => rfl
  | some i' => exact dictInsert_lookup_ne _ _ hne

theorem foldl_normCol_cols (cols : List String) :
    ∀ st : Table α × List (String × FitParam α),
      ((cols.foldl (normCol sq method) st).1).cols = st.1.cols := by
  induction cols with
  | nil => intro st; rfl
  | cons c rest ih =>
    intro st
    rw [List.foldl_cons, ih (normCol sq method st c), normCol_cols]

theorem foldl_normCol_WF (cols : List String) :
    ∀ st : Table α × List (String × FitParam α), WF st.1 →
      WF ((cols.foldl (normCol sq method) st).1) := by
  induction cols with
  | nil => intro st h; exact h
  | cons c rest ih =>
    intro st h
    exact ih (normCol sq method st c) (normCol_WF sq method st c h)

theorem foldl_normCol_preserve (cols2 : List String) :
    ∀ (st : Table α × List (String × FitParam α)) (c : String) (i : Nat),
      ¬c ∈ cols2 → colIdx st.1 c = some i →
      colValues ((cols2.foldl (normCol sq method) st).1) i = colValues st.1 i
      ∧ lookupParam ((cols2.foldl (normCol sq method) st).2) c = lookupParam st.2 c := by
  induction cols2 with
  | nil => intro st c i _ _; exact ⟨rfl, rfl⟩
  | cons c' rest ih =>
    intro st c i hmem hc
    have hne : c ≠ c' := fun he => hmem (he ▸ List.mem_cons_self c' rest)
    have hrest : ¬c ∈ rest := fun hm => hmem (List.mem_cons_of_mem c' hm)
    have hidx' : colIdx (normCol sq method st c').1 c = some i := by
      rw [colIdx_eq_of_cols (normCol_cols sq method st c') c]
      exact hc
    obtain ⟨h1, h2⟩ := ih (normCol sq method st c') c i hrest hidx'
    rw [List.foldl_cons]
    exact ⟨h1.trans (normCol_colValues_ne sq method st hc hne),
      h2.trans (normCol_lookup_ne sq method st hne)⟩

theorem coerce_mem_names (t : Table α) (columns : Option (List String)) {c : String}
    (h : c ∈ coerce_columns t columns) : c ∈ t.cols.map Prod.fst := by
  cases columns with
  | none =>
    obtain ⟨p, hp, he⟩ := List.mem_map.mp h
    exact List.mem_map.mpr ⟨p, (List.mem_filter.mp hp).1, he⟩
  | some cs =>
    have := (List.mem_filter.mp h).2
    simpa using this

theorem foldl_min_le_init (vs : List α') [LinearOrder α'] : ∀ a : α', vs.foldl min a ≤ a := by
  induction vs with
  | nil => intro a; exact le_refl a
  | cons v rest ih => intro a; exact le_trans (ih (min a v)) (min_le_left a v)

theorem foldl_min_le_mem (vs : List α') [LinearOrder α'] :
    ∀ a x : α', x ∈ vs → vs.foldl min a ≤ x := by
  induction vs with
  | nil => intro a x hx; cases hx
  | cons v rest ih =>
    intro a x hx
    rw [List.foldl_cons]
    cases List.mem_cons.mp hx with
    | inl h =>
      rw [h]
      exact le_trans (foldl_min_le_init rest (min a v)) (min_le_right a v)
    | inr h => exact ih (min a v) x h

theorem foldl_max_init_le (vs : List α') [LinearOrder α'] : ∀ a : α', a ≤ vs.foldl max a := by
  induction vs with
  | nil => intro a; exact le_refl a
  | cons v rest ih => intro a; exact le_trans (le_max_left a v) (ih (max a v))

theorem foldl_max_mem_le (vs : List α') [LinearOrder α'] :
    ∀ a x : α', x ∈ vs → x ≤ vs.foldl max a := by
  induction vs with
  | nil => intro a x hx; cases hx
  | cons v rest ih =>
    intro a x hx
    rw [List.foldl_cons]
    cases List.mem_cons.mp hx with
    | inl h =>
      rw [h]
      exact le_trans (le_max_right a v) (foldl_max_init_le rest (max a v))
    | inr h => exact ih (max a v) x h

theorem foldl_min_mem (vs : List α') [LinearOrder α'] : ∀ a : α', vs.foldl min a ∈ a :: vs := by
  induction vs with
  | nil => intro a; exact List.mem_singleton.mpr rfl
  | cons v rest ih =>
    intro a
    have := ih (min a v)
    cases List.mem_cons.mp this with
    | inl h =>
      rw [List.foldl_cons, h]
      cases min_choice a v with
      | inl hm => rw [hm]; exact List.mem_cons_self _ _
      | inr hm => rw [hm]; exact List.mem_cons_of_mem _ (List.mem_cons_self _ _)
    | inr h => exact List.mem_cons_of_mem _ (List.mem_cons_of_mem _ h)

theorem foldl_max_mem (vs : List α') [LinearOrder α'] : ∀ a : α', vs.foldl max a ∈ a :: vs := by
  induction vs with
  | nil => intro a; exact List.mem_singleton.mpr rfl
  | cons v rest ih =>
    intro a
    have := ih (max a v)
    cases List.mem_cons.mp this with
    | inl h =>
      rw [List.foldl_cons, h]
      cases max_choice a v with
      | inl hm => rw [hm]; exact List.mem_cons_self _ _
      | inr hm => rw [hm]; exact List.mem_cons_of_mem _ (List.mem_cons_self _ _)
    | inr h => exact List.mem_cons_of_mem _ (List.mem_cons_of_mem _ h)

theorem listMin_le [LinearOrder α'] [Zero α'] {vs : List α'} {x : α'} (hx : x ∈ vs) :
    listMin vs ≤ x := by
  cases vs with
  | nil => cases hx
  | cons v rest =>
    cases List.mem_cons.mp hx with
    | inl h => exact h ▸ foldl_min_le_init rest v
    | inr h => exact foldl_min_le_mem rest v x h

theorem le_listMax [LinearOrder α'] [Zero α'] {vs : List α'} {x : α'} (hx : x ∈ vs) :
    x ≤ listMax vs := by
  cases vs with
  | nil => cases hx
  | cons v rest =>
    cases List.mem_cons.mp hx with
    | inl h => exact h ▸ foldl_max_init_le rest v
    | inr h => exact foldl_max_mem_le rest v x h

theorem listMin_mem [LinearOrder α'] [Zero α'] {vs : List α'} (h : vs ≠ []) :
    listMin vs ∈ vs := by
  cases vs with
  | nil => exact absurd rfl h
  | cons v rest => exact foldl_min_mem rest v

theorem listMax_mem [LinearOrder α'] [Zero α'] {vs : List α'} (h : vs ≠ []) :
    listMax vs ∈ vs := by
  cases vs with
  | nil => exact absurd rfl h
  | cons v rest => exact foldl_max_mem rest v

theorem listMean_const {vs : List α} {v0 : α} (hne : vs ≠ []) (hc : ∀ x ∈ vs, x = v0) :
    listMean vs = v0 := by
  have hsum : vs.sum = vs.length • v0 := List.sum_eq_card_nsmul vs v0 hc
  have hlen : (vs.length : α) ≠ 0 := by
    have := List.length_pos.mpr hne
    exact_mod_cast Nat.pos_iff_ne_zero.mp this
  rw [listMean, hsum, nsmul_eq_mul]
  exact mul_div_cancel_left₀ v0 hlen

theorem popVar_const {vs : List α} {v0 : α} (hc : ∀ x ∈ vs, x = v0) (hmean : listMean vs = v0) :
    popVar vs = 0 := by
  have hz : ∀ y ∈ vs.map (fun v => (v - listMean vs) ^ 2), y = 0 := by
    intro y hy
    obtain ⟨x, hx, he⟩ := List.mem_map.mp hy
    rw [← he, hc x hx, hmean, sub_self]
    exact zero_pow two_ne_zero
  have hsum : (vs.map (fun v => (v - listMean vs) ^ 2)).sum = 0 := by
    rw [List.sum_eq_card_nsmul _ 0 hz, smul_zero]
  rw [popVar, hsum, zero_div]

theorem foldl_normCol_keys (cols2 : List String) :
    ∀ st : Table α × List (String × FitParam α),
      (∀ c ∈ cols2, (colIdx st.1 c).isSome) →
      (∀ c ∈ cols2, ¬c ∈ st.2.map Prod.fst) →
      cols2.Nodup →
      ((cols2.foldl (normCol sq method) st).2).map Prod.fst = st.2.map Prod.fst ++ cols2 := by
  induction cols2 with
  | nil => intro st _ _ _; simp
  | cons c' rest ih =>
    intro st hres hkeys hnd
    rw [List.foldl_cons]
    obtain ⟨i', hi'⟩ := Option.isSome_iff_exists.mp (hres c' (List.mem_cons_self c' rest))
    have hstep : (normCol sq method st c').2
        = dictInsert st.2 c' (normColParam sq method (nonMissing (colValues st.1 i'))) := by
      unfold normCol
      rw [hi']
    have hkeys' : ((normCol sq method st c').2).map Prod.fst = st.2.map Prod.fst ++ [c'] := by
      rw [hstep]
      exact dictInsert_keys_new _ _ _ (hkeys c' (List.mem_cons_self c' rest))
    have hnodup := List.nodup_cons.mp hnd
    have hih := ih (normCol sq method st c')
      (fun c hc => by
        rw [colIdx_eq_of_cols (normCol_cols sq method st c') c]
        exact hres c (List.mem_cons_of_mem c' hc))
      (fun c hc => by
        rw [hkeys']
        simp only [List.mem_append, List.mem_singleton, not_or]
        exact ⟨hkeys c (List.mem_cons_of_mem c' hc), fun he => hnodup.1 (he ▸ hc)⟩)
      hnodup.2
    rw [hih, hkeys', List.append_assoc]
    rfl

/-- Running the whole loop: the column named `c`, resolved at index `i`,
ends up transformed by `normCellFn` applied to its (pre-call) non-missing
values, and the fitted parameters record `normColParam` for `c`. -/
theorem foldl_normCol_run (cols : List String) :
    ∀ (st : Table α × List (String × FitParam α)) (c : String) (i : Nat),
      cols.Nodup → c ∈ cols → colIdx st.1 c = some i → WF st.1 →
      colValues ((cols.foldl (normCol sq method) st).1) i
        = (colValues st.1 i).map (normCellFn sq method (nonMissing (colValues st.1 i)))
      ∧ lookupParam ((cols.foldl (normCol sq method) st).2) c
        = some (normColParam sq method (nonMissing (colValues st.1 i))) := by
  induction cols with
  | nil => intro st c i _ hc _ _; exact absurd hc (List.not_mem_nil c)
  | cons c' rest ih =>
    intro st c i hnd hmem hidx hwf
    rw [List.foldl_cons]
    have hnodup := List.nodup_cons.mp hnd
    by_cases hcc : c = c'
    · subst hcc
      have hstep1 : (normCol sq method st c).1
          = { st.1 with rows := st.1.rows.map (fun r =>
              r.set i (normCellFn sq method (nonMissing (colValues st.1 i)) (r.getD i none))) } := by
        unfold normCol
        rw [hidx]
      have hstep2 : (normCol sq method st c).2
          = dictInsert st.2 c (normColParam sq method (nonMissing (colValues st.1 i))) := by
        unfold normCol
        rw [hidx]
      have hcv : colValues (normCol sq method st c).1 i
          = (colValues st.1 i).map (normCellFn sq method (nonMissing (colValues st.1 i))) := by
        rw [hstep1]
        unfold colValues
        dsimp only
        rw [List.map_map, List.map_map]
        refine List.map_congr_left (fun r hr => ?_)
        have hlen : i < r.length := by
          rw [hwf r hr]
          exact colIdx_lt_length hidx
        simp [Function.comp, List.getD_eq_getElem?_getD, List.getElem?_set_self hlen]
      have hlk : lookupParam (normCol sq method st c).2 c
          = some (normColParam sq method (nonMissing (colValues st.1 i))) := by
        rw [hstep2]
        exact dictInsert_lookup_self _ _ _
      have hidx' : colIdx (normCol sq method st c).1 c = some i := by
        rw [colIdx_eq_of_cols (normCol_cols sq method st c) c]
        exact hidx
      obtain ⟨hp1, hp2⟩ := foldl_normCol_preserve sq method rest (normCol sq method st c) c i
        hnodup.1 hidx'
      exact ⟨hp1.trans hcv, hp2.trans hlk⟩
    · have hmem' : c ∈ rest := by
        cases List.mem_cons.mp hmem with
        | inl h => exact absurd h hcc
        | inr h => exact h
      have hidx' : colIdx (normCol sq method st c').1 c = some i := by
        rw [colIdx_eq_of_cols (normCol_cols sq method st c') c]
        exact hidx
      have hcv' : colValues (normCol sq method st c').1 i = colValues st.1 i :=
        normCol_colValues_ne sq method st hidx hcc
      obtain ⟨h1, h2⟩ := ih (normCol sq method st c') c i hnodup.2 hmem' hidx'
        (normCol_WF sq method st c' hwf)
      rw [hcv'] at h1 h2
      exact ⟨h1, h2⟩

end NormalizeLemmas

end Cleaning

open Cleaning

/-! ### Claims -/

/-- C2: each of `fill_missing_median`, `drop_missing`, and
`normalize_data` leaves the input table's memory slot unchanged after the
call: each copies the input and writes only the copy. -/
theorem claim_C2_nonmutation (m : List (Table ℚ)) (i : Nat) (hi : i < m.length)
    (columns columns2 : Option (List String)) (how : String) (thresh : Option Nat)
    (subset : Option (List String)) (method : String) (sq : ℚ → ℚ) :
    (fill_missing_median_st m i columns).1[i]? = m[i]?
    ∧ (drop_missing_st m i how thresh subset).1[i]? = m[i]?
    ∧ (normalize_data_st sq m i columns2 method).1[i]? = m[i]? := by
  refine ⟨getElem?_append_set_tail m _ _ hi, ?_, ?_⟩
  · unfold drop_missing_st
    cases hd : dropna (m.getD i ⟨[], []⟩) how thresh subset with
    | ok t2 =>
      simp only [hd]
      rw [getElem?_append_tail _ _ (by simpa using Nat.lt_succ_of_lt hi)]
      exact getElem?_append_tail m _ hi
    | error e =>
      simp only [hd]
      exact getElem?_append_tail m _ hi
  · unfold normalize_data_st
    cases hn : normalize_data sq (m.getD i ⟨[], []⟩) columns2 method with
    | ok p =>
      obtain ⟨t2, params⟩ := p
      simp only [hn]
      exact getElem?_append_set_tail m _ _ hi
    | error e =>
      simp only [hn]
      exact getElem?_append_tail m _ hi

/-- C2 witness: a concrete one-table memory, exercised with each function. -/
theorem claim_C2_nonmutation_witness :
    (0 < [(⟨[("a", true)], [[some 1], [none]]⟩ : Table ℚ)].length)
    ∧ ((fill_missing_median_st [(⟨[("a", true)], [[some 1], [none]]⟩ : Table ℚ)] 0 none).1[0]?
        = [(⟨[("a", true)], [[some 1], [none]]⟩ : Table ℚ)][0]?
      ∧ (drop_missing_st [(⟨[("a", true)], [[some 1], [none]]⟩ : Table ℚ)] 0 "any" none none).1[0]?
        = [(⟨[("a", true)], [[some 1], [none]]⟩ : Table ℚ)][0]?
      ∧ (normalize_data_st id [(⟨[("a", true)], [[some 1], [none]]⟩ : Table ℚ)] 0 none "minmax").1[0]?
        = [(⟨[("a", true)], [[some 1], [none]]⟩ : Table ℚ)][0]?) :=
  ⟨by decide,
    claim_C2_nonmutation [(⟨[("a", true)], [[some 1], [none]]⟩ : Table ℚ)] 0 (by decide)
      none none "any" none none "minmax" id⟩

/-- C6: `normalize_data` with a method other than `"standard"` or
`"minmax"` fails with the `ValueError`, and the input table's memory slot
is untouched (the only allocation is the abandoned copy). -/
theorem claim_C6_invalid_method (m : List (Table ℚ)) (i : Nat) (hi : i < m.length)
    (columns : Option (List String)) (method : String) (sq : ℚ → ℚ)
    (h : ¬(method = "standard" ∨ method = "minmax")) :
    (normalize_data_st sq m i columns method).2
      = Except.error "method must be one of \x7b\"standard\", \"minmax\"\x7d"
    ∧ (normalize_data_st sq m i columns method).1[i]? = m[i]? := by
  have he : normalize_data sq (m.getD i ⟨[], []⟩) columns method
      = Except.error "method must be one of \x7b\"standard\", \"minmax\"\x7d" := by
    unfold normalize_data
    rw [if_neg h]
  unfold normalize_data_st
  simp only [he]
  exact ⟨by trivial, getElem?_append_tail m _ hi⟩

/-- C6 witness: a concrete invalid method on a concrete memory. -/
theorem claim_C6_invalid_method_witness :
    (0 < [(⟨[("a", true)], [[some 1]]⟩ : Table ℚ)].length
      ∧ ¬("zscore" = "standard" ∨ "zscore" = "minmax"))
    ∧ ((normalize_data_st id [(⟨[("a", true)], [[some 1]]⟩ : Table ℚ)] 0 none "zscore").2
        = Except.error "method must be one of \x7b\"standard\", \"minmax\"\x7d"
      ∧ (normalize_data_st id [(⟨[("a", true)], [[some 1]]⟩ : Table ℚ)] 0 none "zscore").1[0]?
        = [(⟨[("a", true)], [[some 1]]⟩ : Table ℚ)][0]?) :=
  ⟨by decide,
    claim_C6_invalid_method [(⟨[("a", true)], [[some 1]]⟩ : Table ℚ)] 0 (by decide)
      none "zscore" id (by decide)⟩

/-- C9: whenever `drop_missing` returns a table, its rows are a sublist of
the input's rows (original relative order) and its row count is at most
the input's. -/
theorem claim_C9_rowcount_order (t : Table ℚ) (how : String) (thresh : Option Nat)
    (subset : Option (List String)) (out : Table ℚ)
    (h : drop_missing t how thresh subset = Except.ok out) :
    out.rows.Sublist t.rows ∧ out.rows.length ≤ t.rows.length := by
  have hs : out.rows.Sublist t.rows := by
    unfold drop_missing dropna at h
    cases hr : resolveSubset t subset with
    | error e => rw [hr] at h; dsimp only at h; cases h
    | ok idxs =>
      rw [hr] at h
      dsimp only at h
      cases thresh with
      | some k =>
        dsimp only at h
        cases h
        exact List.filter_sublist _
      | none =>
        dsimp only at h
        by_cases h1 : how = "any"
        · rw [if_pos h1] at h
          cases h
          exact List.filter_sublist _
        · rw [if_neg h1] at h
          by_cases h2 : how = "all"
          · rw [if_pos h2] at h
            cases h
            exact List.filter_sublist _
          · rw [if_neg h2] at h
            cases h
  exact ⟨hs, hs.length_le⟩

/-- C9 witness: a concrete call that keeps one of two rows. -/
theorem claim_C9_rowcount_order_witness :
    (drop_missing (⟨[("a", true)], [[some 1], [none]]⟩ : Table ℚ) "any" none none
        = Except.ok (⟨[("a", true)], [[some 1]]⟩ : Table ℚ))
    ∧ ([[some (1 : ℚ)]].Sublist [[some (1 : ℚ)], [none]] ∧ [[some (1 : ℚ)]].length ≤ [[some (1 : ℚ)], [none]].length) :=
  ⟨by decide,
    claim_C9_rowcount_order (⟨[("a", true)], [[some 1], [none]]⟩ : Table ℚ) "any" none none
      (⟨[("a", true)], [[some 1]]⟩ : Table ℚ) (by decide)⟩

/-- C8: column resolution is total; with no requested list it returns the
numeric columns in native order, and with a requested list it returns
exactly the requested names that exist, in requested order. -/
theorem claim_C8_coerce_columns (t : Table ℚ) (cs : List String) :
    (coerce_columns t none).Sublist (t.cols.map Prod.fst)
    ∧ (∀ c, c ∈ coerce_columns t none ↔ (c, true) ∈ t.cols)
    ∧ (coerce_columns t (some cs)).Sublist cs
    ∧ (∀ c, c ∈ coerce_columns t (some cs) ↔ c ∈ cs ∧ c ∈ t.cols.map Prod.fst) := by
  refine ⟨?_, ?_, ?_, ?_⟩
  · exact (List.filter_sublist t.cols).map Prod.fst
  · intro c
    simp [coerce_columns, List.mem_filter, List.mem_map]
  · exact List.filter_sublist cs
  · intro c
    simp [coerce_columns, List.mem_filter]

/-- The count of non-missing values of row `r` among the columns named in
`S` (the claim's row statistic, looked up name by name). -/
def rowNonMissingCount (t : Table ℚ) (S : List String) (r : List (Option ℚ)) : Nat :=
  (S.filterMap (fun c => (colIdx t c).bind (fun i => r.getD i none))).length

theorem colIdx_isSome_of_mem (t : Table ℚ) (c : String) (h : c ∈ t.cols.map Prod.fst) :
    ∃ i, colIdx t c = some i := by
  rw [← Option.isSome_iff_exists]
  unfold colIdx
  rw [List.findIdx?_isSome, List.any_eq_true]
  obtain ⟨p, hp, hfst⟩ := List.mem_map.mp h
  exact ⟨p, hp, by simp [hfst]⟩

theorem resolveNames_of_mem (t : Table ℚ) (S : List String)
    (hS : ∀ c ∈ S, c ∈ t.cols.map Prod.fst) :
    resolveNames t S = Except.ok (S.map (fun c => (colIdx t c).getD 0)) := by
  induction S with
  | nil => rfl
  | cons c cs ih =>
    obtain ⟨i, hi⟩ := colIdx_isSome_of_mem t c (hS c (List.mem_cons_self c cs))
    have := ih (fun d hd => hS d (List.mem_cons_of_mem c hd))
    unfold resolveNames
    rw [hi, this]
    simp [hi]

theorem resolveNames_ok_length (t : Table ℚ) (S : List String) (idxs : List Nat)
    (h : resolveNames t S = Except.ok idxs) : idxs.length = S.length := by
  induction S generalizing idxs with
  | nil => cases h; rfl
  | cons c cs ih =>
    unfold resolveNames at h
    cases hc : colIdx t c with
    | none => rw [hc] at h; cases h
    | some i =>
      rw [hc] at h
      cases hr : resolveNames t cs with
      | error e => rw [hr] at h; cases h
      | ok is =>
        rw [hr] at h
        cases h
        simp [ih is hr]

theorem countNonNA_resolved (t : Table ℚ) (r : List (Option ℚ)) (S : List String)
    (hS : ∀ c ∈ S, c ∈ t.cols.map Prod.fst) :
    countNonNA (S.map (fun c => (colIdx t c).getD 0)) r = rowNonMissingCount t S r := by
  induction S with
  | nil => rfl
  | cons c cs ih =>
    obtain ⟨i, hi⟩ := colIdx_isSome_of_mem t c (hS c (List.mem_cons_self c cs))
    have ihc := ih (fun d hd => hS d (List.mem_cons_of_mem c hd))
    unfold countNonNA rowNonMissingCount at ihc ⊢
    simp only [List.map_cons, List.filterMap_cons, hi, Option.getD_some, Option.some_bind]
    cases hcell : r.getD i none with
    | none =>
      rw [List.getD_eq_getElem?_getD] at hcell
      simpa [List.filter_cons, hcell] using ihc
    | some v =>
      rw [List.getD_eq_getElem?_getD] at hcell
      simpa [List.filter_cons, hcell] using ihc

/-- C1: a given `thresh` overrides `how`: the kept rows are exactly those
whose non-missing count among the `subset` columns is at least `thresh`;
consequently `how="any"` coincides with `thresh = len(S)` (for any `how`
on the thresh side, since it is ignored). -/
theorem claim_C1_thresh_overrides_how (t : Table ℚ) (how how2 : String) (k : Nat)
    (S : List String) (hS : ∀ c ∈ S, c ∈ t.cols.map Prod.fst) :
    drop_missing t how (some k) (some S)
      = Except.ok ⟨t.cols, t.rows.filter (fun r => k ≤ rowNonMissingCount t S r)⟩
    ∧ drop_missing t "any" none (some S) = drop_missing t how2 (some S.length) (some S) := by
  constructor
  · unfold drop_missing dropna resolveSubset
    dsimp only
    rw [resolveNames_of_mem t S hS]
    dsimp only
    have : ∀ r ∈ t.rows,
        decide (k ≤ countNonNA (S.map (fun c => (colIdx t c).getD 0)) r)
          = decide (k ≤ rowNonMissingCount t S r) := by
      intro r _
      rw [countNonNA_resolved t r S hS]
    rw [List.filter_congr this]
  · unfold drop_missing dropna resolveSubset
    dsimp only
    cases hr : resolveNames t S with
    | error e => rfl
    | ok idxs =>
      dsimp only
      rw [if_pos (show ("any" : String) = "any" from rfl)]
      have hlen := resolveNames_ok_length t S idxs hr
      have : ∀ r ∈ t.rows,
          (idxs.all (fun i => (r.getD i none).isSome))
            = decide (S.length ≤ countNonNA idxs r) := by
        intro r _
        rw [Bool.eq_iff_iff, List.all_eq_true, decide_eq_true_eq]
        unfold countNonNA
        constructor
        · intro hall
          have : (idxs.filter (fun i => (r.getD i none).isSome)).length = idxs.length :=
            List.filter_length_eq_length.mpr hall
          omega
        · intro hle
          have hub := List.length_filter_le (fun i => (r.getD i none).isSome) idxs
          exact List.filter_length_eq_length.mp (by omega)
      rw [List.filter_congr this]

/-- C1 witness: a two-column table; `thresh` keeps rows with enough
non-missing cells, and the `how="any"` / `thresh=len(S)` calls agree. -/
theorem claim_C1_thresh_overrides_how_witness :
    (∀ c ∈ ["a", "b"],
      c ∈ (⟨[("a", true), ("b", true)], [[some 1, none], [some 2, some 3], [none, none]]⟩ :
          Table ℚ).cols.map Prod.fst)
    ∧ (drop_missing (⟨[("a", true), ("b", true)],
          [[some 1, none], [some 2, some 3], [none, none]]⟩ : Table ℚ) "all" (some 1) (some ["a", "b"])
        = Except.ok ⟨[("a", true), ("b", true)],
            ([[some 1, none], [some 2, some 3], [none, none]] :
              List (List (Option ℚ))).filter (fun r =>
                1 ≤ rowNonMissingCount (⟨[("a", true), ("b", true)],
                  [[some 1, none], [some 2, some 3], [none, none]]⟩ : Table ℚ) ["a", "b"] r)⟩
      ∧ drop_missing (⟨[("a", true), ("b", true)],
          [[some 1, none], [some 2, some 3], [none, none]]⟩ : Table ℚ) "any" none (some ["a", "b"])
        = drop_missing (⟨[("a", true), ("b", true)],
          [[some 1, none], [some 2, some 3], [none, none]]⟩ : Table ℚ) "all"
            (some (["a", "b"] : List String).length) (some ["a", "b"])) :=
  ⟨by decide,
    claim_C1_thresh_overrides_how
      (⟨[("a", true), ("b", true)], [[some 1, none], [some 2, some 3], [none, none]]⟩ : Table ℚ)
      "all" "all" 1 ["a", "b"] (by decide)⟩

/-- C3: `fill_missing_median` is idempotent: after one pass the resolved
columns either have no missing cells left or an undefined (all-missing)
median, so a second pass changes nothing. -/
theorem claim_C3_fill_idempotent (t : Table ℚ) (columns : Option (List String)) :
    fill_missing_median (fill_missing_median t columns) columns
      = fill_missing_median t columns := by
  have hmed : ∀ i, fillMed t i = none → fillMed (fill_missing_median t columns) i = none := by
    intro i h
    unfold fillMed
    rw [colValues_fill_of_med_none t columns i h]
    exact h
  have hcoerce : coerce_columns (fill_missing_median t columns) columns
      = coerce_columns t columns := by
    cases columns <;> rfl
  refine table_eq_of _ _ rfl ?_
  show (fill_missing_median t columns).rows.map
        (fillRow (fillTarget (fill_missing_median t columns)
          (coerce_columns (fill_missing_median t columns) columns))
          (fillMed (fill_missing_median t columns)) 0)
      = (fill_missing_median t columns).rows
  rw [hcoerce]
  have htarget : fillTarget (fill_missing_median t columns) (coerce_columns t columns)
      = fillTarget t (coerce_columns t columns) := rfl
  rw [htarget]
  show (t.rows.map (fillRow (fillTarget t (coerce_columns t columns)) (fillMed t) 0)).map _
      = t.rows.map (fillRow (fillTarget t (coerce_columns t columns)) (fillMed t) 0)
  rw [List.map_map]
  refine List.map_congr_left (fun r _ => ?_)
  show fillRow (fillTarget t (coerce_columns t columns)) (fillMed (fill_missing_median t columns)) 0
        (fillRow (fillTarget t (coerce_columns t columns)) (fillMed t) 0 r)
      = fillRow (fillTarget t (coerce_columns t columns)) (fillMed t) 0 r
  apply List.ext_getElem?
  intro n
  rw [fillRow_getElem?, fillRow_getElem?]
  cases hr : r[n]? with
  | none => simp
  | some cell =>
    simp only [hr, Option.map_some']
    exact congrArg some (fillStep_fillStep (hmed (0 + n)) cell)

/-- C10: a resolved column with zero non-missing values has an undefined
median; `fill_missing_median` leaves every cell of that column missing. -/
theorem claim_C10_allmissing_column (t : Table ℚ) (columns : Option (List String))
    (c : String) (i : Nat) (hc : c ∈ coerce_columns t columns) (hi : colIdx t c = some i)
    (hall : nonMissing (colValues t i) = []) :
    colValues (fill_missing_median t columns) i = colValues t i
    ∧ ∀ cell ∈ colValues (fill_missing_median t columns) i, cell = none := by
  have hmed : fillMed t i = none := by
    unfold fillMed
    rw [hall]
    decide
  have heq := colValues_fill_of_med_none t columns i hmed
  refine ⟨heq, ?_⟩
  intro cell hcell
  rw [heq] at hcell
  unfold nonMissing at hall
  exact List.filterMap_eq_nil_iff.mp hall cell hcell

/-- C10 witness: a numeric column that is entirely missing. -/
theorem claim_C10_allmissing_column_witness :
    ("a" ∈ coerce_columns (⟨[("a", true)], [[none], [none]]⟩ : Table ℚ) none
      ∧ colIdx (⟨[("a", true)], [[none], [none]]⟩ : Table ℚ) "a" = some 0
      ∧ nonMissing (colValues (⟨[("a", true)], [[none], [none]]⟩ : Table ℚ) 0) = [])
    ∧ (colValues (fill_missing_median (⟨[("a", true)], [[none], [none]]⟩ : Table ℚ) none) 0
        = colValues (⟨[("a", true)], [[none], [none]]⟩ : Table ℚ) 0
      ∧ ∀ cell ∈ colValues (fill_missing_median (⟨[("a", true)], [[none], [none]]⟩ : Table ℚ) none) 0,
          cell = none) :=
  ⟨by decide,
    claim_C10_allmissing_column (⟨[("a", true)], [[none], [none]]⟩ : Table ℚ) none "a" 0
      (by decide) (by decide) (by decide)⟩

/-- C4: with `method="standard"` and a column of nonzero population
standard deviation (`Real.sqrt` of the divisor-`N` variance), each value
`x` of the resolved column becomes `(x - mean) / std` (missing cells stay
missing), and the fitted parameters record the standard tag with that mean
and std. -/
theorem claim_C4_standard_scaler (t : Table ℝ) (columns : Option (List String)) (c : String)
    (i : Nat) (hnd : (coerce_columns t columns).Nodup) (hmem : c ∈ coerce_columns t columns)
    (hidx : colIdx t c = some i) (hwf : WF t)
    (hstd : Real.sqrt (popVar (nonMissing (colValues t i))) ≠ 0) :
    normalize_data Real.sqrt t columns "standard"
      = Except.ok ((coerce_columns t columns).foldl (normCol Real.sqrt "standard") (t, []))
    ∧ Real.sqrt (popVar (nonMissing (colValues t i))) ^ 2 = popVar (nonMissing (colValues t i))
    ∧ colValues (((coerce_columns t columns).foldl (normCol Real.sqrt "standard") (t, [])).1) i
        = (colValues t i).map (fun cell => cell.map (fun x =>
            (x - listMean (nonMissing (colValues t i)))
              / Real.sqrt (popVar (nonMissing (colValues t i)))))
    ∧ lookupParam (((coerce_columns t columns).foldl (normCol Real.sqrt "standard") (t, [])).2) c
        = some (FitParam.standard (listMean (nonMissing (colValues t i)))
            (Real.sqrt (popVar (nonMissing (colValues t i))))) := by
  obtain ⟨h1, h2⟩ := foldl_normCol_run Real.sqrt "standard" (coerce_columns t columns) (t, [])
    c i hnd hmem hidx hwf
  dsimp only at h1 h2
  have hfn : normCellFn Real.sqrt "standard" (nonMissing (colValues t i))
      = fun cell => cell.map (fun x => (x - listMean (nonMissing (colValues t i)))
          / Real.sqrt (popVar (nonMissing (colValues t i)))) := by
    unfold normCellFn
    rw [if_pos rfl, if_neg hstd]
  have hpar : normColParam Real.sqrt "standard" (nonMissing (colValues t i))
      = FitParam.standard (listMean (nonMissing (colValues t i)))
        (Real.sqrt (popVar (nonMissing (colValues t i)))) := by
    unfold normColParam
    rw [if_pos rfl]
  have hpv : 0 ≤ popVar (nonMissing (colValues t i)) := by
    unfold popVar
    apply div_nonneg
    · apply List.sum_nonneg
      intro y hy
      obtain ⟨x, hx, he⟩ := List.mem_map.mp hy
      rw [← he]
      exact sq_nonneg _
    · exact Nat.cast_nonneg _
  refine ⟨?_, Real.sq_sqrt hpv, ?_, ?_⟩
  · unfold normalize_data
    rw [if_pos (Or.inl rfl)]
  · rw [h1, hfn]
  · rw [h2, hpar]

/-- C4 witness: the column `[1, 3]` has mean 2 and population std 1. -/
theorem claim_C4_standard_scaler_witness :
    ((coerce_columns (⟨[("x", true)], [[some 1], [some 3]]⟩ : Table ℝ) none).Nodup
      ∧ "x" ∈ coerce_columns (⟨[("x", true)], [[some 1], [some 3]]⟩ : Table ℝ) none
      ∧ colIdx (⟨[("x", true)], [[some 1], [some 3]]⟩ : Table ℝ) "x" = some 0
      ∧ WF (⟨[("x", true)], [[some 1], [some 3]]⟩ : Table ℝ)
      ∧ Real.sqrt (popVar (nonMissing
          (colValues (⟨[("x", true)], [[some 1], [some 3]]⟩ : Table ℝ) 0))) ≠ 0)
    ∧ (normalize_data Real.sqrt (⟨[("x", true)], [[some 1], [some 3]]⟩ : Table ℝ) none "standard"
        = Except.ok ((coerce_columns (⟨[("x", true)], [[some 1], [some 3]]⟩ : Table ℝ) none).foldl
            (normCol Real.sqrt "standard") ((⟨[("x", true)], [[some 1], [some 3]]⟩ : Table ℝ), []))
      ∧ Real.sqrt (popVar (nonMissing
            (colValues (⟨[("x", true)], [[some 1], [some 3]]⟩ : Table ℝ) 0))) ^ 2
          = popVar (nonMissing (colValues (⟨[("x", true)], [[some 1], [some 3]]⟩ : Table ℝ) 0))
      ∧ colValues (((coerce_columns (⟨[("x", true)], [[some 1], [some 3]]⟩ : Table ℝ) none).foldl
            (normCol Real.sqrt "standard") ((⟨[("x", true)], [[some 1], [some 3]]⟩ : Table ℝ), [])).1) 0
          = (colValues (⟨[("x", true)], [[some 1], [some 3]]⟩ : Table ℝ) 0).map (fun cell =>
              cell.map (fun x =>
                (x - listMean (nonMissing
                    (colValues (⟨[("x", true)], [[some 1], [some 3]]⟩ : Table ℝ) 0)))
                  / Real.sqrt (popVar (nonMissing
                      (colValues (⟨[("x", true)], [[some 1], [some 3]]⟩ : Table ℝ) 0)))))
      ∧ lookupParam (((coerce_columns (⟨[("x", true)], [[some 1], [some 3]]⟩ : Table ℝ) none).foldl
            (normCol Real.sqrt "standard") ((⟨[("x", true)], [[some 1], [some 3]]⟩ : Table ℝ), [])).2) "x"
          = some (FitParam.standard
              (listMean (nonMissing (colValues (⟨[("x", true)], [[some 1], [some 3]]⟩ : Table ℝ) 0)))
              (Real.sqrt (popVar (nonMissing
                (colValues (⟨[("x", true)], [[some 1], [some 3]]⟩ : Table ℝ) 0)))))) := by
  have hval : nonMissing (colValues (⟨[("x", true)], [[some 1], [some 3]]⟩ : Table ℝ) 0)
      = [1, 3] := rfl
  have hvar : popVar ([1, 3] : List ℝ) = 1 := by
    norm_num [popVar, listMean, List.sum_cons, List.sum_nil]
  have hstd : Real.sqrt (popVar (nonMissing
      (colValues (⟨[("x", true)], [[some 1], [some 3]]⟩ : Table ℝ) 0))) ≠ 0 := by
    rw [hval, hvar, Real.sqrt_one]
    exact one_ne_zero
  have hsing : coerce_columns (⟨[("x", true)], [[some 1], [some 3]]⟩ : Table ℝ) none = ["x"] := rfl
  have hnd : (coerce_columns (⟨[("x", true)], [[some 1], [some 3]]⟩ : Table ℝ) none).Nodup := by
    rw [hsing]
    exact List.nodup_singleton "x"
  have hmem : "x" ∈ coerce_columns (⟨[("x", true)], [[some 1], [some 3]]⟩ : Table ℝ) none := by
    rw [hsing]
    exact List.mem_singleton.mpr rfl
  have hidx : colIdx (⟨[("x", true)], [[some 1], [some 3]]⟩ : Table ℝ) "x" = some 0 := rfl
  have hwf : WF (⟨[("x", true)], [[some 1], [some 3]]⟩ : Table ℝ) := by
    intro r hr
    cases hr with
    | head => rfl
    | tail _ h =>
      cases h with
      | head => rfl
      | tail _ h => cases h
  exact ⟨⟨hnd, hmem, hidx, hwf, hstd⟩,
    claim_C4_standard_scaler (⟨[("x", true)], [[some 1], [some 3]]⟩ : Table ℝ) none "x" 0
      hnd hmem hidx hwf hstd⟩

/-- C5: with `method="minmax"` and a column of nonzero range, each value
`x` becomes `(x - min) / (max - min)`; every transformed value lies in
`[0, 1]`, the column minimum is mapped to `0` and the maximum to `1`, and
the fitted parameters record the minmax tag with the min and max. -/
theorem claim_C5_minmax_bounds (sq : ℚ → ℚ) (t : Table ℚ) (columns : Option (List String))
    (c : String) (i : Nat) (hnd : (coerce_columns t columns).Nodup)
    (hmem : c ∈ coerce_columns t columns) (hidx : colIdx t c = some i) (hwf : WF t)
    (hrng : listMax (nonMissing (colValues t i)) - listMin (nonMissing (colValues t i)) ≠ 0) :
    normalize_data sq t columns "minmax"
      = Except.ok ((coerce_columns t columns).foldl (normCol sq "minmax") (t, []))
    ∧ colValues (((coerce_columns t columns).foldl (normCol sq "minmax") (t, [])).1) i
        = (colValues t i).map (fun cell => cell.map (fun x =>
            (x - listMin (nonMissing (colValues t i)))
              / (listMax (nonMissing (colValues t i)) - listMin (nonMissing (colValues t i)))))
    ∧ (∀ x ∈ nonMissing (colValues t i),
        0 ≤ (x - listMin (nonMissing (colValues t i)))
              / (listMax (nonMissing (colValues t i)) - listMin (nonMissing (colValues t i)))
        ∧ (x - listMin (nonMissing (colValues t i)))
              / (listMax (nonMissing (colValues t i)) - listMin (nonMissing (colValues t i))) ≤ 1)
    ∧ (listMin (nonMissing (colValues t i)) ∈ nonMissing (colValues t i)
        ∧ (listMin (nonMissing (colValues t i)) - listMin (nonMissing (colValues t i)))
            / (listMax (nonMissing (colValues t i)) - listMin (nonMissing (colValues t i))) = 0)
    ∧ (listMax (nonMissing (colValues t i)) ∈ nonMissing (colValues t i)
        ∧ (listMax (nonMissing (colValues t i)) - listMin (nonMissing (colValues t i)))
            / (listMax (nonMissing (colValues t i)) - listMin (nonMissing (colValues t i))) = 1)
    ∧ lookupParam (((coerce_columns t columns).foldl (normCol sq "minmax") (t, [])).2) c
        = some (FitParam.minmax (listMin (nonMissing (colValues t i)))
            (listMax (nonMissing (colValues t i)))) := by
  obtain ⟨h1, h2⟩ := foldl_normCol_run sq "minmax" (coerce_columns t columns) (t, [])
    c i hnd hmem hidx hwf
  dsimp only at h1 h2
  have hne : nonMissing (colValues t i) ≠ [] := by
    intro h
    apply hrng
    rw [h]
    simp [listMax, listMin]
  have hle : listMin (nonMissing (colValues t i)) ≤ listMax (nonMissing (colValues t i)) :=
    listMin_le (listMax_mem hne)
  have hpos : 0 < listMax (nonMissing (colValues t i)) - listMin (nonMissing (colValues t i)) :=
    lt_of_le_of_ne (sub_nonneg.mpr hle) (Ne.symm hrng)
  have hfn : normCellFn sq "minmax" (nonMissing (colValues t i))
      = fun cell => cell.map (fun x => (x - listMin (nonMissing (colValues t i)))
          / (listMax (nonMissing (colValues t i)) - listMin (nonMissing (colValues t i)))) := by
    unfold normCellFn
    rw [if_neg (by decide : ¬("minmax" : String) = "standard"), if_neg hrng]
  have hpar : normColParam sq "minmax" (nonMissing (colValues t i))
      = FitParam.minmax (listMin (nonMissing (colValues t i)))
        (listMax (nonMissing (colValues t i))) := by
    unfold normColParam
    rw [if_neg (by decide : ¬("minmax" : String) = "standard")]
  refine ⟨?_, ?_, ?_, ?_, ?_, ?_⟩
  · unfold normalize_data
    rw [if_pos (Or.inr rfl)]
  · rw [h1, hfn]
  · intro x hx
    exact ⟨div_nonneg (sub_nonneg.mpr (listMin_le hx)) hpos.le,
      (div_le_one hpos).mpr (sub_le_sub_right (le_listMax hx) _)⟩
  · exact ⟨listMin_mem hne, by rw [sub_self, zero_div]⟩
  · exact ⟨listMax_mem hne, div_self hrng⟩
  · rw [h2, hpar]

/-- C5 witness: the spec's concrete scenario `x = [1,2,3,4,5]`, which is
mapped to `[0, 0.25, 0.5, 0.75, 1.0]` with parameters `min=1, max=5`. -/
theorem claim_C5_minmax_bounds_witness :
    ((coerce_columns (⟨[("x", true)],
        [[some 1], [some 2], [some 3], [some 4], [some 5]]⟩ : Table ℚ) none).Nodup
      ∧ "x" ∈ coerce_columns (⟨[("x", true)],
          [[some 1], [some 2], [some 3], [some 4], [some 5]]⟩ : Table ℚ) none
      ∧ colIdx (⟨[("x", true)],
          [[some 1], [some 2], [some 3], [some 4], [some 5]]⟩ : Table ℚ) "x" = some 0
      ∧ WF (⟨[("x", true)], [[some 1], [some 2], [some 3], [some 4], [some 5]]⟩ : Table ℚ)
      ∧ listMax (nonMissing (colValues (⟨[("x", true)],
            [[some 1], [some 2], [some 3], [some 4], [some 5]]⟩ : Table ℚ) 0))
          - listMin (nonMissing (colValues (⟨[("x", true)],
            [[some 1], [some 2], [some 3], [some 4], [some 5]]⟩ : Table ℚ) 0)) ≠ 0)
    ∧ (∀ x ∈ nonMissing (colValues (⟨[("x", true)],
          [[some 1], [some 2], [some 3], [some 4], [some 5]]⟩ : Table ℚ) 0),
        0 ≤ (x - listMin (nonMissing (colValues (⟨[("x", true)],
              [[some 1], [some 2], [some 3], [some 4], [some 5]]⟩ : Table ℚ) 0)))
            / (listMax (nonMissing (colValues (⟨[("x", true)],
                [[some 1], [some 2], [some 3], [some 4], [some 5]]⟩ : Table ℚ) 0))
              - listMin (nonMissing (colValues (⟨[("x", true)],
                [[some 1], [some 2], [some 3], [some 4], [some 5]]⟩ : Table ℚ) 0)))
        ∧ (x - listMin (nonMissing (colValues (⟨[("x", true)],
              [[some 1], [some 2], [some 3], [some 4], [some 5]]⟩ : Table ℚ) 0)))
            / (listMax (nonMissing (colValues (⟨[("x", true)],
                [[some 1], [some 2], [some 3], [some 4], [some 5]]⟩ : Table ℚ) 0))
              - listMin (nonMissing (colValues (⟨[("x", true)],
                [[some 1], [some 2], [some 3], [some 4], [some 5]]⟩ : Table ℚ) 0))) ≤ 1)
    ∧ colValues (((coerce_columns (⟨[("x", true)],
          [[some 1], [some 2], [some 3], [some 4], [some 5]]⟩ : Table ℚ) none).foldl
          (normCol id "minmax")
          ((⟨[("x", true)], [[some 1], [some 2], [some 3], [some 4], [some 5]]⟩ : Table ℚ), [])).1) 0
        = [some 0, some (1/4), some (1/2), some (3/4), some 1]
    ∧ lookupParam (((coerce_columns (⟨[("x", true)],
          [[some 1], [some 2], [some 3], [some 4], [some 5]]⟩ : Table ℚ) none).foldl
          (normCol id "minmax")
          ((⟨[("x", true)], [[some 1], [some 2], [some 3], [some 4], [some 5]]⟩ : Table ℚ), [])).2) "x"
        = some (FitParam.minmax 1 5) := by
  have hminv : listMin (nonMissing (colValues (⟨[("x", true)],
      [[some 1], [some 2], [some 3], [some 4], [some 5]]⟩ : Table ℚ) 0)) = 1 := by decide
  have hmaxv : listMax (nonMissing (colValues (⟨[("x", true)],
      [[some 1], [some 2], [some 3], [some 4], [some 5]]⟩ : Table ℚ) 0)) = 5 := by decide
  have h1 : (coerce_columns (⟨[("x", true)],
      [[some 1], [some 2], [some 3], [some 4], [some 5]]⟩ : Table ℚ) none).Nodup := by decide
  have h2 : "x" ∈ coerce_columns (⟨[("x", true)],
      [[some 1], [some 2], [some 3], [some 4], [some 5]]⟩ : Table ℚ) none := by decide
  have h3 : colIdx (⟨[("x", true)],
      [[some 1], [some 2], [some 3], [some 4], [some 5]]⟩ : Table ℚ) "x" = some 0 := by decide
  have h4 : WF (⟨[("x", true)], [[some 1], [some 2], [some 3], [some 4], [some 5]]⟩ : Table ℚ) := by
    decide
  have h5 : listMax (nonMissing (colValues (⟨[("x", true)],
        [[some 1], [some 2], [some 3], [some 4], [some 5]]⟩ : Table ℚ) 0))
      - listMin (nonMissing (colValues (⟨[("x", true)],
        [[some 1], [some 2], [some 3], [some 4], [some 5]]⟩ : Table ℚ) 0)) ≠ 0 := by
    rw [hminv, hmaxv]
    norm_num
  obtain ⟨hA, hB, hC, hD, hE, hF⟩ := claim_C5_minmax_bounds id
    (⟨[("x", true)], [[some 1], [some 2], [some 3], [some 4], [some 5]]⟩ : Table ℚ) none "x" 0
    h1 h2 h3 h4 h5
  refine ⟨⟨h1, h2, h3, h4, h5⟩, hC, ?_, ?_⟩
  · rw [hB]
    have hcv : colValues (⟨[("x", true)],
        [[some 1], [some 2], [some 3], [some 4], [some 5]]⟩ : Table ℚ) 0
        = [some 1, some 2, some 3, some 4, some 5] := by decide
    rw [hminv, hmaxv, hcv]
    norm_num [List.map_cons, List.map_nil, Option.map_some']
  · rw [hF, hminv, hmaxv]

/-- C7: the fitted parameters hold exactly one entry per processed column
(keys in processing order), and a column whose non-missing values are all
equal becomes all zeros under both methods, its entry recording the mean
with std 0 (standard) resp. min and max with max = min (minmax). -/
theorem claim_C7_degenerate_params (sq : ℚ → ℚ) (t : Table ℚ) (columns : Option (List String))
    (c : String) (i : Nat) (v0 : ℚ) (hsq0 : sq 0 = 0)
    (hnd : (coerce_columns t columns).Nodup) (hmem : c ∈ coerce_columns t columns)
    (hidx : colIdx t c = some i) (hwf : WF t)
    (hne : nonMissing (colValues t i) ≠ [])
    (hconst : ∀ x ∈ nonMissing (colValues t i), x = v0) :
    (((coerce_columns t columns).foldl (normCol sq "standard") (t, [])).2).map Prod.fst
        = coerce_columns t columns
    ∧ (((coerce_columns t columns).foldl (normCol sq "minmax") (t, [])).2).map Prod.fst
        = coerce_columns t columns
    ∧ colValues (((coerce_columns t columns).foldl (normCol sq "standard") (t, [])).1) i
        = (colValues t i).map (fun _ => some 0)
    ∧ lookupParam (((coerce_columns t columns).foldl (normCol sq "standard") (t, [])).2) c
        = some (FitParam.standard v0 0)
    ∧ colValues (((coerce_columns t columns).foldl (normCol sq "minmax") (t, [])).1) i
        = (colValues t i).map (fun _ => some 0)
    ∧ lookupParam (((coerce_columns t columns).foldl (normCol sq "minmax") (t, [])).2) c
        = some (FitParam.minmax v0 v0) := by
  have hmean := listMean_const hne hconst
  have hvar := popVar_const hconst hmean
  have hminv : listMin (nonMissing (colValues t i)) = v0 := hconst _ (listMin_mem hne)
  have hmaxv : listMax (nonMissing (colValues t i)) = v0 := hconst _ (listMax_mem hne)
  have hrng0 : listMax (nonMissing (colValues t i)) - listMin (nonMissing (colValues t i)) = 0 := by
    rw [hminv, hmaxv, sub_self]
  have hres : ∀ c' ∈ coerce_columns t columns, (colIdx t c').isSome := by
    intro c' hc'
    obtain ⟨j, hj⟩ := colIdx_isSome_of_mem t c' (coerce_mem_names t columns hc')
    rw [hj]
    rfl
  have hkeys_s := foldl_normCol_keys sq "standard" (coerce_columns t columns) (t, [])
    hres (by intro c' _; simp) hnd
  have hkeys_m := foldl_normCol_keys sq "minmax" (coerce_columns t columns) (t, [])
    hres (by intro c' _; simp) hnd
  have hfn_s : normCellFn sq "standard" (nonMissing (colValues t i)) = fun _ => some 0 := by
    unfold normCellFn
    rw [if_pos rfl, if_pos (by rw [hvar, hsq0])]
  have hpar_s : normColParam sq "standard" (nonMissing (colValues t i))
      = FitParam.standard v0 0 := by
    unfold normColParam
    rw [if_pos rfl, hmean, hvar, hsq0]
  have hfn_m : normCellFn sq "minmax" (nonMissing (colValues t i)) = fun _ => some 0 := by
    unfold normCellFn
    rw [if_neg (by decide : ¬("minmax" : String) = "standard"), if_pos hrng0]
  have hpar_m : normColParam sq "minmax" (nonMissing (colValues t i))
      = FitParam.minmax v0 v0 := by
    unfold normColParam
    rw [if_neg (by decide : ¬("minmax" : String) = "standard"), hminv, hmaxv]
  obtain ⟨hs1, hs2⟩ := foldl_normCol_run sq "standard" (coerce_columns t columns) (t, [])
    c i hnd hmem hidx hwf
  obtain ⟨hm1, hm2⟩ := foldl_normCol_run sq "minmax" (coerce_columns t columns) (t, [])
    c i hnd hmem hidx hwf
  dsimp only at hs1 hs2 hm1 hm2
  refine ⟨by simpa using hkeys_s, by simpa using hkeys_m, ?_, ?_, ?_, ?_⟩
  · rw [hs1, hfn_s]
  · rw [hs2, hpar_s]
  · rw [hm1, hfn_m]
  · rw [hm2, hpar_m]

/-- C7 witness: a numeric column `[5, NaN, 5]` whose values are all equal;
both methods zero the column (the missing cell included) and still record
an entry for it. -/
theorem claim_C7_degenerate_params_witness :
    ((coerce_columns (⟨[("x", true)], [[some 5], [none], [some 5]]⟩ : Table ℚ) none).Nodup
      ∧ "x" ∈ coerce_columns (⟨[("x", true)], [[some 5], [none], [some 5]]⟩ : Table ℚ) none
      ∧ colIdx (⟨[("x", true)], [[some 5], [none], [some 5]]⟩ : Table ℚ) "x" = some 0
      ∧ WF (⟨[("x", true)], [[some 5], [none], [some 5]]⟩ : Table ℚ)
      ∧ nonMissing (colValues (⟨[("x", true)], [[some 5], [none], [some 5]]⟩ : Table ℚ) 0) ≠ []
      ∧ (∀ x ∈ nonMissing (colValues (⟨[("x", true)], [[some 5], [none], [some 5]]⟩ : Table ℚ) 0),
          x = (5 : ℚ))
      ∧ id (0 : ℚ) = 0)
    ∧ ((((coerce_columns (⟨[("x", true)], [[some 5], [none], [some 5]]⟩ : Table ℚ) none).foldl
          (normCol id "standard")
          ((⟨[("x", true)], [[some 5], [none], [some 5]]⟩ : Table ℚ), [])).2).map Prod.fst
        = coerce_columns (⟨[("x", true)], [[some 5], [none], [some 5]]⟩ : Table ℚ) none
      ∧ (((coerce_columns (⟨[("x", true)], [[some 5], [none], [some 5]]⟩ : Table ℚ) none).foldl
          (normCol id "minmax")
          ((⟨[("x", true)], [[some 5], [none], [some 5]]⟩ : Table ℚ), [])).2).map Prod.fst
        = coerce_columns (⟨[("x", true)], [[some 5], [none], [some 5]]⟩ : Table ℚ) none
      ∧ colValues (((coerce_columns (⟨[("x", true)], [[some 5], [none], [some 5]]⟩ : Table ℚ) none).foldl
          (normCol id "standard")
          ((⟨[("x", true)], [[some 5], [none], [some 5]]⟩ : Table ℚ), [])).1) 0
        = (colValues (⟨[("x", true)], [[some 5], [none], [some 5]]⟩ : Table ℚ) 0).map
            (fun _ => some 0)
      ∧ lookupParam (((coerce_columns (⟨[("x", true)], [[some 5], [none], [some 5]]⟩ : Table ℚ) none).foldl
          (normCol id "standard")
          ((⟨[("x", true)], [[some 5], [none], [some 5]]⟩ : Table ℚ), [])).2) "x"
        = some (FitParam.standard 5 0)
      ∧ colValues (((coerce_columns (⟨[("x", true)], [[some 5], [none], [some 5]]⟩ : Table ℚ) none).foldl
          (normCol id "minmax")
          ((⟨[("x", true)], [[some 5], [none], [some 5]]⟩ : Table ℚ), [])).1) 0
        = (colValues (⟨[("x", true)], [[some 5], [none], [some 5]]⟩ : Table ℚ) 0).map
            (fun _ => some 0)
      ∧ lookupParam (((coerce_columns (⟨[("x", true)], [[some 5], [none], [some 5]]⟩ : Table ℚ) none).foldl
          (normCol id "minmax")
          ((⟨[("x", true)], [[some 5], [none], [some 5]]⟩ : Table ℚ), [])).2) "x"
        = some (FitParam.minmax 5 5)) :=
  ⟨⟨by decide, by decide, by decide, by decide, by decide, by decide, rfl⟩,
    claim_C7_degenerate_params id (⟨[("x", true)], [[some 5], [none], [some 5]]⟩ : Table ℚ)
      none "x" 0 5 rfl (by decide) (by decide) (by decide) (by decide) (by decide) (by decide)⟩
